import Mathlib

/-!
Shallow embedding of the EzySubs live-game rotation engine
(`src/app/index.tsx`, component `GameCourtScreen`).

JavaScript `Map<string, number>` values are modelled as association lists
with distinct keys in insertion order (`JMap`).  JS numbers that hold whole
milliseconds / seconds are modelled as `Int`; `Math.floor` of a quotient is
`Int.fdiv`; minute-denominated settings (which may be fractional) are `ℚ`.
-/

namespace EzySubs

/-- `type Player = { id: string; name: string }` (src/app/index.tsx:244). -/
structure Player where
  id : String
  name : String
deriving Repr, DecidableEq

/-- A JS `Map<string, Int>`: entries in insertion order, keys distinct. -/
abbrev JMap := List (String × Int)

/-- `Map.get(k)`: value of the entry with key `k`, if present. -/
def mapGet : JMap → String → Option Int
  | [], _ => none
  | e :: rest, k => if e.1 = k then some e.2 else mapGet rest k

/-- `Map.has(k)`. -/
def mapHas : JMap → String → Bool
  | [], _ => false
  | e :: rest, k => if e.1 = k then true else mapHas rest k

/-- `Map.set(k, v)`: replace in place if present, else append (JS insertion
order semantics). -/
def mapSet : JMap → String → Int → JMap
  | [], k, v => [(k, v)]
  | e :: rest, k, v => if e.1 = k then (k, v) :: rest else e :: mapSet rest k v

/-- `type ManualSwapDraft` (src/app/index.tsx:246). -/
structure ManualSwapDraft where
  reason : String
  incoming : Option Player := none
  outgoing : Option Player := none
deriving Repr, DecidableEq

/-- `type ManualPromptConfig` (src/app/index.tsx:252). -/
inductive ManualPromptConfig where
  | starterReason (player : Player)
  | benchReason (player : Player)
  | confirm (incoming outgoing : Player) (reason : String)
deriving Repr, DecidableEq

/-- `type SavedPlayerSnapshot` (src/app/index.tsx:257). -/
structure SavedPlayerSnapshot where
  id : String
  name : String
  seconds : Int
  subs : Int
deriving Repr, DecidableEq

/-- `type SavedGameSnapshot` (src/app/index.tsx:264).  The `practiceDate`
yyyy-mm-dd string is modelled as the UTC day index of the timestamp it is
derived from. -/
structure SavedGameSnapshot where
  id : String
  practiceDate : Int
  startedAt : Int
  endedAt : Int
  totalGameSeconds : Int
  players : List SavedPlayerSnapshot
deriving Repr, DecidableEq

/-- Constants from src/app/index.tsx:237-242. -/
def DEFAULT_HALF_MINUTES : ℚ := 18
def DEFAULT_QUARTER_MINUTES : ℚ := 8
def DEFAULT_SUB_INTERVAL_MINUTES : ℚ := 4
def DEFAULT_HALF_LENGTH_SECONDS : Int := 18 * 60
def DEFAULT_SUB_INTERVAL_SECONDS : Int := 4 * 60
def DEFAULT_SUB_WARNING_SECONDS : Int := 30
def CURRENT_GAME_STATE_VERSION : Int := 1

/-- The mutable state of `GameCourtScreen` that the rotation engine reads and
writes: React state, the engine refs, plus the `gameHistory` storage record
(`history`) that `persistGameHistory` appends to. -/
structure GameState where
  starters : List Player
  bench : List Player
  secondsMap : JMap        -- playerCourtSecondsRef
  subsMap : JMap           -- playerSubCountRef
  gameClock : Int
  subWindowClock : Int
  isPaused : Bool
  pauseReason : Option String
  gameEnded : Bool         -- gameEndedRef
  pendingIn : Option Player
  pendingOut : Option Player
  subCountdownActive : Bool
  manualSwapDraft : Option ManualSwapDraft
  manualPrompt : Option ManualPromptConfig
  lastTickTimestamp : Int  -- lastTickTimestampRef
  halfLengthSeconds : Int
  subIntervalSeconds : Int
  subWarningSeconds : Int
  quarterBreakSeconds : Int
  quarterPauseTriggered : Bool
  lastQuarterLabel : Option String
  lastHalfLabel : Option String
  breakOverlayDismissed : Bool
  gameReady : Bool
  quarterCounter : Int     -- quarterCounterRef
  halfCounter : Int        -- halfCounterRef
  gameStartTimestamp : Int -- gameStartTimestampRef
  latestSavedGameId : Option String
  initialRoster : List Player  -- initialRosterRef
  history : List SavedGameSnapshot  -- KEYS.gameHistory record
deriving Repr, DecidableEq

/-- `getCourtSeconds` (src/app/index.tsx:472-475). -/
def getCourtSeconds (secondsMap : JMap) : Option Player → Int
  | none => 0
  | some p => (mapGet secondsMap p.id).getD 0

/-- Stable insert of `x` (an element originally before everything in the
already-sorted tail) for the ascending comparator
`(a, b) => getCourtSeconds(a) - getCourtSeconds(b)`. -/
def insertAsc (key : Player → Int) (x : Player) : List Player → List Player
  | [] => [x]
  | y :: ys => if key x ≤ key y then x :: y :: ys else y :: insertAsc key x ys

/-- Stable ascending sort (JS `Array.prototype.sort` is stable). -/
def sortAsc (key : Player → Int) : List Player → List Player
  | [] => []
  | x :: xs => insertAsc key x (sortAsc key xs)

/-- Stable insert for the descending comparator
`(a, b) => getCourtSeconds(b) - getCourtSeconds(a)`. -/
def insertDesc (key : Player → Int) (x : Player) : List Player → List Player
  | [] => [x]
  | y :: ys => if key y ≤ key x then x :: y :: ys else y :: insertDesc key x ys

/-- Stable descending sort. -/
def sortDesc (key : Player → Int) : List Player → List Player
  | [] => []
  | x :: xs => insertDesc key x (sortDesc key xs)

/-- `pickPendingSwap` (src/app/index.tsx:477-500): sorts a copy of the bench
ascending and of the on-court list descending by accumulated court seconds and
takes the heads. -/
def pickPendingSwap (secondsMap : JMap) (onCourt bnch : List Player) :
    Option Player × Option Player :=
  if onCourt.length = 0 || bnch.length = 0 then (none, none)
  else
    let key := fun p => getCourtSeconds secondsMap (some p)
    let incoming := (sortAsc key bnch).head?
    let outgoing := (sortDesc key onCourt).head?
    match incoming, outgoing with
    | some i, some o => (some i, some o)
    | _, _ => (none, none)

/-- Modelled from the spec: « incoming = bench player with the lowest
accumulated court-time (ties broken by original list order) » — the first
element of the list attaining the minimal key. -/
def firstMinBy (key : Player → Int) : List Player → Option Player
  | [] => none
  | x :: xs =>
    match firstMinBy key xs with
    | none => some x
    | some y => if key x ≤ key y then some x else some y

/-- Modelled from the spec: « outgoing = on-court player with the highest
accumulated court-time (same tie-break) » — the first element attaining the
maximal key. -/
def firstMaxBy (key : Player → Int) : List Player → Option Player
  | [] => none
  | x :: xs =>
    match firstMaxBy key xs with
    | none => some x
    | some y => if key y ≤ key x then some x else some y

/-- `subsMap.set(id, (subsMap.get(id) ?? 0) + 1)` inside `performSub`. -/
def bumpSubCount (m : JMap) (id : String) : JMap :=
  mapSet m id ((mapGet m id).getD 0 + 1)

/-- Body of `performSub` (src/app/index.tsx:502-530) once the incoming and
outgoing players have been resolved from the override (or the pending pair):
no-op if either is `null`; otherwise bump both lifetime sub counters (incoming
first, then outgoing, on the updated map), remove the outgoing player from the
starters and append the incoming one, remove the incoming player from the
bench and append the outgoing one. -/
def performSubWith (s : GameState) :
    Option Player → Option Player → GameState
  | some incomingPlayer, some outgoingPlayer =>
    { s with
      subsMap := bumpSubCount (bumpSubCount s.subsMap incomingPlayer.id)
        outgoingPlayer.id
      starters :=
        s.starters.filter (fun p => p.id ≠ outgoingPlayer.id) ++ [incomingPlayer]
      bench :=
        s.bench.filter (fun p => p.id ≠ incomingPlayer.id) ++ [outgoingPlayer] }
  | _, _ => s

/-- `performSub(override?)` (src/app/index.tsx:502-530): the incoming player
is `override?.incoming ?? pendingIn`, the outgoing one
`override?.outgoing ?? pendingOut`. -/
def performSub (s : GameState) (override : Option (Player × Player)) :
    GameState :=
  let incomingPlayer := match override with
    | some o => some o.1
    | none => s.pendingIn
  let outgoingPlayer := match override with
    | some o => some o.2
    | none => s.pendingOut
  performSubWith s incomingPlayer outgoingPlayer

/-- The `startersRef.current.forEach` loop of `applyElapsedSeconds`: add
`delta` to every starter's accumulated court seconds (missing entries count
as 0). -/
def addCourtSeconds (m : JMap) (starters : List Player) (delta : Int) : JMap :=
  starters.foldl
    (fun acc p => mapSet acc p.id ((mapGet acc p.id).getD 0 + delta)) m

/-- `applyElapsedSeconds(deltaSeconds)` (src/app/index.tsx:735-757): if the
delta is ≤ 0 do nothing, else decrement both clocks (floored at 0) and credit
every current starter with the delta. -/
def applyElapsedSeconds (s : GameState) (deltaSeconds : Int) : GameState :=
  if deltaSeconds ≤ 0 then s
  else
    { s with
      gameClock := max 0 (s.gameClock - deltaSeconds)
      subWindowClock := max 0 (s.subWindowClock - deltaSeconds)
      secondsMap := addCourtSeconds s.secondsMap s.starters deltaSeconds }

/-- `flushElapsedTime()` (src/app/index.tsx:759-773), with `Date.now()`
passed as `now`.  Paused or ended: only re-anchor `lastTickTimestamp`.
Otherwise compute `Math.floor((now - lastTickTimestamp) / 1000)`; if ≤ 0 do
nothing, else apply it and advance the anchor by exactly
`deltaSeconds * 1000`. -/
def flushElapsedTime (s : GameState) (now : Int) : GameState :=
  if s.isPaused || s.gameEnded then { s with lastTickTimestamp := now }
  else
    let deltaSeconds := Int.fdiv (now - s.lastTickTimestamp) 1000
    if deltaSeconds ≤ 0 then s
    else
      { applyElapsedSeconds s deltaSeconds with
        lastTickTimestamp := s.lastTickTimestamp + deltaSeconds * 1000 }

/-- The « sub countdown + auto sub trigger » effect
(src/app/index.tsx:1209-1247).  Skipped while paused.  Within the warning
window (`0 < subWindowClock ≤ subWarningSeconds`) it recomputes the pending
swap and arms the countdown banner, otherwise it disarms it; then, at
`subWindowClock == 0`, it executes the freshly planned swap when both sides
are present, clears the draft/prompt/pending pair, and resets the window to
the full interval. -/
def subWindowTick (s : GameState) : GameState :=
  if s.isPaused then s
  else
    let s1 :=
      if s.subWindowClock ≤ s.subWarningSeconds ∧ 0 < s.subWindowClock then
        let plan := pickPendingSwap s.secondsMap s.starters s.bench
        { s with
          pendingIn := plan.1
          pendingOut := plan.2
          subCountdownActive := true }
      else { s with subCountdownActive := false }
    if s1.subWindowClock = 0 then
      let plan := pickPendingSwap s1.secondsMap s1.starters s1.bench
      let s2 := match plan with
        | (some ip, some op) => performSubWith s1 (some ip) (some op)
        | _ => s1
      { s2 with
        manualSwapDraft := none
        manualPrompt := none
        subWindowClock := s2.subIntervalSeconds
        pendingIn := none
        pendingOut := none
        subCountdownActive := false }
    else s1

/-- `type PersistedGameState` (src/app/index.tsx:273-302).  Every field is
`Option`-valued because `restoreFromPersisted` defends each read with `??` /
`typeof` checks. -/
structure PersistedGameState where
  version : Int
  savedAt : Option Int := none
  starters : Option (List Player) := none
  bench : Option (List Player) := none
  initialRoster : Option (List Player) := none
  pendingIn : Option Player := none
  pendingOut : Option Player := none
  subCountdownActive : Option Bool := none
  subWindowClock : Option Int := none
  gameClock : Option Int := none
  isPaused : Option Bool := none
  pauseReason : Option String := none
  quarterPauseTriggered : Option Bool := none
  lastQuarterLabel : Option String := none
  lastHalfLabel : Option String := none
  breakOverlayDismissed : Option Bool := none
  halfLengthSeconds : Option Int := none
  subIntervalSeconds : Option Int := none
  subWarningSeconds : Option Int := none
  quarterBreakSeconds : Option Int := none
  quarterCounter : Option Int := none
  halfCounter : Option Int := none
  playerCourtSeconds : Option JMap := none
  playerSubCounts : Option JMap := none
  gameStartTimestamp : Option Int := none
  gameEnded : Option Bool := none
  latestSavedGameId : Option String := none
deriving Repr, DecidableEq

/-- The guard of the load effect (src/app/index.tsx:856-860):
`persisted && persisted.version === CURRENT_GAME_STATE_VERSION &&
!persisted.gameEnded`. -/
def canRestore (p : PersistedGameState) : Bool :=
  p.version = CURRENT_GAME_STATE_VERSION && !(p.gameEnded.getD false)

/-- `restoreFromPersisted(state)` (src/app/index.tsx:630-733), with
`Date.now()` passed as `now`.  Restores every field with its code default,
then — when the snapshot was neither ended nor paused — applies
`max(0, floor((now - savedAt) / 1000))` elapsed seconds to both clocks and to
every restored starter's ledger entry, and finally re-anchors
`lastTickTimestamp` to `now`.  (The history storage record is untouched by a
restore; it is modelled as empty here.) -/
def restoreFromPersisted (state : PersistedGameState) (now : Int) : GameState :=
  let startersList := state.starters.getD []
  let benchList := state.bench.getD []
  let initialRoster :=
    match state.initialRoster with
    | some r => if r.length > 0 then r else startersList ++ benchList
    | none => startersList ++ benchList
  let storedIsPaused := state.isPaused.getD false
  let gameEnded := state.gameEnded.getD false
  let restoredSubWindow :=
    (state.subWindowClock).getD
      ((state.subIntervalSeconds).getD DEFAULT_SUB_INTERVAL_SECONDS)
  let restoredGameClock :=
    (state.gameClock).getD
      ((state.halfLengthSeconds).getD DEFAULT_HALF_LENGTH_SECONDS)
  let secondsMap0 := state.playerCourtSeconds.getD []
  let savedAt := state.savedAt.getD now
  let elapsedSeconds :=
    if gameEnded || storedIsPaused then 0
    else max 0 (Int.fdiv (now - savedAt) 1000)
  let adjustedGame :=
    if elapsedSeconds > 0 then max 0 (restoredGameClock - elapsedSeconds)
    else restoredGameClock
  let adjustedSub :=
    if elapsedSeconds > 0 then max 0 (restoredSubWindow - elapsedSeconds)
    else restoredSubWindow
  let secondsMap1 :=
    if elapsedSeconds > 0 then
      addCourtSeconds secondsMap0 startersList elapsedSeconds
    else secondsMap0
  { starters := startersList
    bench := benchList
    secondsMap := secondsMap1
    subsMap := state.playerSubCounts.getD []
    gameClock := adjustedGame
    subWindowClock := adjustedSub
    isPaused := storedIsPaused
    pauseReason := state.pauseReason
    gameEnded := gameEnded
    pendingIn := state.pendingIn
    pendingOut := state.pendingOut
    subCountdownActive := state.subCountdownActive.getD false
    manualSwapDraft := none
    manualPrompt := none
    lastTickTimestamp := now
    halfLengthSeconds := state.halfLengthSeconds.getD DEFAULT_HALF_LENGTH_SECONDS
    subIntervalSeconds :=
      state.subIntervalSeconds.getD DEFAULT_SUB_INTERVAL_SECONDS
    subWarningSeconds :=
      state.subWarningSeconds.getD DEFAULT_SUB_WARNING_SECONDS
    quarterBreakSeconds := state.quarterBreakSeconds.getD 0
    quarterPauseTriggered := state.quarterPauseTriggered.getD false
    lastQuarterLabel := state.lastQuarterLabel
    lastHalfLabel := state.lastHalfLabel
    breakOverlayDismissed := state.breakOverlayDismissed.getD false
    gameReady := true
    quarterCounter := state.quarterCounter.getD 1
    halfCounter := state.halfCounter.getD 1
    gameStartTimestamp := state.gameStartTimestamp.getD now
    latestSavedGameId := state.latestSavedGameId
    initialRoster := initialRoster
    history := [] }

/-- JS `Math.round` on a ratio of integers: `round(n / 1000)` is
`⌊(n + 500) / 1000⌋` (half rounds toward +∞, matching JS). -/
def jsRoundDiv1000 (n : Int) : Int := Int.fdiv (n + 500) 1000

/-- `persistGameHistory()` (src/app/index.tsx:532-571), with `Date.now()`
passed as `endedAt`: returns `null` (no state change) when the initial roster
is empty; otherwise builds an archived-game record from the roster and the
final ledgers, prepends it to the history list, and remembers its id. -/
def persistGameHistory (s : GameState) (endedAt : Int) : GameState :=
  if s.initialRoster.length = 0 then s
  else
    let playerSnapshots : List SavedPlayerSnapshot :=
      s.initialRoster.map (fun player =>
        { id := player.id
          name := player.name
          seconds := (mapGet s.secondsMap player.id).getD 0
          subs := (mapGet s.subsMap player.id).getD 0 })
    let record : SavedGameSnapshot :=
      { id := toString endedAt
        practiceDate := Int.fdiv endedAt 86400000
        startedAt := s.gameStartTimestamp
        endedAt := endedAt
        totalGameSeconds :=
          max 1 (jsRoundDiv1000 (endedAt - s.gameStartTimestamp))
        players := playerSnapshots }
    { s with
      history := record :: s.history
      latestSavedGameId := some record.id }

/-- `finalizeGame()` (src/app/index.tsx:822-842), with `Date.now()` passed as
`now`: no-op if already ended, else flush elapsed time, mark ended, force
pause, clear the pending pair / draft / prompt, reset the sub window, set the
pause reason to `"end"`, archive the game, and re-anchor the tick
timestamp. -/
def finalizeGame (s : GameState) (now : Int) : GameState :=
  if s.gameEnded then s
  else
    let s0 := flushElapsedTime s now
    let s1 :=
      { s0 with
        gameEnded := true
        isPaused := true
        gameReady := false
        pendingIn := none
        pendingOut := none
        subCountdownActive := false
        manualSwapDraft := none
        manualPrompt := none
        subWindowClock := s0.subIntervalSeconds
        pauseReason := some "end"
        breakOverlayDismissed := false
        quarterPauseTriggered := false
        lastQuarterLabel := none
        lastHalfLabel := none }
    let s2 := persistGameHistory s1 now
    { s2 with lastTickTimestamp := now }

/-- `togglePause()` (src/app/index.tsx:1330-1361), with `Date.now()` passed
as `now`: returns immediately when the pause reason is `"end"`; otherwise
flushes, then either resumes (resetting the clocks when the half had ended)
or pauses with no recorded reason. -/
def togglePause (s : GameState) (now : Int) : GameState :=
  if s.pauseReason = some "end" then s
  else
    let s0 := flushElapsedTime s now
    if s0.isPaused then
      let s1 :=
        if s0.gameClock = 0 then
          { s0 with
            gameClock := s0.halfLengthSeconds
            subWindowClock := s0.subIntervalSeconds
            quarterPauseTriggered := false }
        else s0
      { s1 with
        pauseReason := none
        lastQuarterLabel := none
        lastHalfLabel := none
        manualPrompt := none
        breakOverlayDismissed := false
        pendingIn := none
        pendingOut := none
        subCountdownActive := false
        isPaused := false
        lastTickTimestamp := now }
    else
      { s0 with
        pauseReason := none
        isPaused := true
        lastTickTimestamp := now }

/-- `type StoredGameSettings` (src/app/index.tsx:935-942); minute-denominated
legacy fields may be fractional, so every numeric field is `ℚ`. -/
structure StoredGameSettings where
  halfLengthSeconds : Option ℚ := none
  subIntervalSeconds : Option ℚ := none
  subWarningSeconds : Option ℚ := none
  halfTime : Option ℚ := none
  quarterTime : Option ℚ := none
  subsTime : Option ℚ := none
deriving Repr, DecidableEq

/-- JS `Math.round` (half rounds toward +∞). -/
def jsRound (x : ℚ) : Int := ⌊x + 1 / 2⌋

/-- The normalized settings produced by the load effect. -/
structure NormalizedSettings where
  halfSeconds : Int
  subsSeconds : Int
  quarterSeconds : Int
  warnSeconds : ℚ
deriving Repr, DecidableEq

/-- Settings normalization in the load effect (src/app/index.tsx:950-975):
seconds-denominated values are divided by 60, legacy minute fields (or the
defaults 18 / 4 / 8 minutes) are used otherwise, and the results are
converted back to seconds with `Math.round` and floored at 60 s (half), 30 s
(sub interval) and 0 s (quarter break). -/
def normalizeGameSettings (settings : Option StoredGameSettings) :
    NormalizedSettings :=
  let halfMinutes : ℚ :=
    match settings.bind (fun s => s.halfLengthSeconds) with
    | some s => s / 60
    | none => (settings.bind (fun s => s.halfTime)).getD DEFAULT_HALF_MINUTES
  let subsMinutes : ℚ :=
    match settings.bind (fun s => s.subIntervalSeconds) with
    | some s => s / 60
    | none =>
      (settings.bind (fun s => s.subsTime)).getD DEFAULT_SUB_INTERVAL_MINUTES
  let quarterMinutes : ℚ :=
    (settings.bind (fun s => s.quarterTime)).getD DEFAULT_QUARTER_MINUTES
  { halfSeconds := max 60 (jsRound (halfMinutes * 60))
    subsSeconds := max 30 (jsRound (subsMinutes * 60))
    quarterSeconds := max 0 (jsRound (quarterMinutes * 60))
    warnSeconds :=
      (settings.bind (fun s => s.subWarningSeconds)).getD
        ((DEFAULT_SUB_WARNING_SECONDS : Int) : ℚ) }

/-- The seeding half of the roster-sync effect: for each roster member, seed
a missing map entry at 0. -/
def seedLedger (m : JMap) (roster : List Player) : JMap :=
  roster.foldl
    (fun acc p => if mapHas acc p.id then acc else mapSet acc p.id 0) m

/-- One pass of the roster-sync effect's `roster.forEach` loop over the
accumulator `(updatedRoster, secondsMap, subsMap)`. -/
def syncStep (acc : List Player × JMap × JMap) (p : Player) :
    List Player × JMap × JMap :=
  let ur := acc.1
  let sm := acc.2.1
  let bm := acc.2.2
  let sm1 := if mapHas sm p.id then sm else mapSet sm p.id 0
  let bm1 := if mapHas bm p.id then bm else mapSet bm p.id 0
  let ur1 := if ur.any (fun q => q.id = p.id) then ur else ur ++ [p]
  (ur1, sm1, bm1)

/-- The roster-sync effect (src/app/index.tsx:1059-1088): seed missing
court-seconds and sub-count entries at 0 for every member of
`starters ++ bench`, extend the known initial roster with unseen players, and
delete every court-seconds entry whose id is no longer in the roster
(sub-count entries are never deleted). -/
def syncRosterLedger (starters bench initialRoster : List Player)
    (secondsMap subsMap : JMap) : List Player × JMap × JMap :=
  let roster := starters ++ bench
  let seeded := roster.foldl syncStep (initialRoster, secondsMap, subsMap)
  (seeded.1,
   seeded.2.1.filter (fun e => roster.any (fun p => p.id = e.1)),
   seeded.2.2)

/-- A substitution request is valid when both sides, if present, come from
the list they claim to leave (the planner and the manual workflow only ever
produce such requests). -/
def validCall (s : GameState) (c : Option Player × Option Player) : Bool :=
  match c with
  | (some ip, some op) => decide (ip ∈ s.bench) && decide (op ∈ s.starters)
  | _ => true

/-- A sequence of substitution requests, each valid in the state it is
applied to. -/
def validCalls : GameState → List (Option Player × Option Player) → Bool
  | _, [] => true
  | s, c :: cs => validCall s c && validCalls (performSubWith s c.1 c.2) cs

/-- Apply a sequence of substitution requests. -/
def performSubs (s : GameState) (calls : List (Option Player × Option Player)) :
    GameState :=
  calls.foldl (fun st c => performSubWith st c.1 c.2) s

/-! ### Basic lemmas about the `JMap` model -/

theorem mapGet_mapSet_self (m : JMap) (k : String) (v : Int) :
    mapGet (mapSet m k v) k = some v := by
  induction m with
  | nil => simp [mapSet, mapGet]
  | cons e rest ih =>
    by_cases h : e.1 = k <;> simp [mapSet, mapGet, h, ih]

theorem mapGet_mapSet_ne (m : JMap) {k k' : String} (v : Int) (h : k' ≠ k) :
    mapGet (mapSet m k v) k' = mapGet m k' := by
  induction m with
  | nil => simp [mapSet, mapGet, Ne.symm h]
  | cons e rest ih =>
    by_cases he : e.1 = k
    · simp [mapSet, mapGet, he, Ne.symm h]
    · by_cases he' : e.1 = k' <;> simp [mapSet, mapGet, he, he', ih, h]

theorem mapHas_eq_isSome (m : JMap) (k : String) :
    mapHas m k = (mapGet m k).isSome := by
  induction m with
  | nil => rfl
  | cons e rest ih => by_cases h : e.1 = k <;> simp [mapHas, mapGet, h, ih]

theorem mapHas_mapSet (m : JMap) (k k' : String) (v : Int) :
    mapHas (mapSet m k v) k' = true ↔ k' = k ∨ mapHas m k' = true := by
  by_cases h : k' = k
  · subst h; simp [mapHas_eq_isSome, mapGet_mapSet_self]
  · simp [mapHas_eq_isSome, mapGet_mapSet_ne m v h, h]

/-! ### Lemmas about `addCourtSeconds` -/

theorem mapGet_addCourtSeconds_notMem (l : List Player) :
    ∀ (m : JMap) (d : Int) (k : String), k ∉ l.map Player.id →
      mapGet (addCourtSeconds m l d) k = mapGet m k := by
  induction l with
  | nil => intro m d k _; rfl
  | cons p rest ih =>
    intro m d k h
    simp only [List.map_cons, List.mem_cons, not_or] at h
    show mapGet
        (addCourtSeconds (mapSet m p.id ((mapGet m p.id).getD 0 + d)) rest d)
        k = mapGet m k
    rw [ih _ _ _ h.2, mapGet_mapSet_ne m _ h.1]

theorem mapGet_addCourtSeconds_mem (l : List Player) :
    ∀ (m : JMap) (d : Int) (k : String), (l.map Player.id).Nodup →
      k ∈ l.map Player.id →
      mapGet (addCourtSeconds m l d) k = some ((mapGet m k).getD 0 + d) := by
  induction l with
  | nil => intro m d k _ h; simp at h
  | cons p rest ih =>
    intro m d k hnd h
    simp only [List.map_cons, List.nodup_cons] at hnd
    simp only [List.map_cons, List.mem_cons] at h
    show mapGet
        (addCourtSeconds (mapSet m p.id ((mapGet m p.id).getD 0 + d)) rest d)
        k = _
    rcases h with h | h
    · subst h
      rw [mapGet_addCourtSeconds_notMem rest _ d _ hnd.1, mapGet_mapSet_self]
    · have hne : k ≠ p.id := fun hh => hnd.1 (hh ▸ h)
      rw [ih _ _ _ hnd.2 h, mapGet_mapSet_ne m _ hne]

/-! ### Lemmas about the stable sorts used by the planner -/

theorem head_insertAsc (key : Player → Int) (x : Player) (l : List Player) :
    (insertAsc key x l).head? =
      some (match l.head? with
        | none => x
        | some y => if key x ≤ key y then x else y) := by
  cases l with
  | nil => rfl
  | cons y ys => by_cases h : key x ≤ key y <;> simp [insertAsc, h]

theorem head_sortAsc (key : Player → Int) (l : List Player) :
    (sortAsc key l).head? = firstMinBy key l := by
  induction l with
  | nil => rfl
  | cons x xs ih =>
    rw [sortAsc, head_insertAsc, firstMinBy, ← ih]
    cases (sortAsc key xs).head? with
    | none => rfl
    | some y => by_cases h : key x ≤ key y <;> simp [h]

theorem head_insertDesc (key : Player → Int) (x : Player) (l : List Player) :
    (insertDesc key x l).head? =
      some (match l.head? with
        | none => x
        | some y => if key y ≤ key x then x else y) := by
  cases l with
  | nil => rfl
  | cons y ys => by_cases h : key y ≤ key x <;> simp [insertDesc, h]

theorem head_sortDesc (key : Player → Int) (l : List Player) :
    (sortDesc key l).head? = firstMaxBy key l := by
  induction l with
  | nil => rfl
  | cons x xs ih =>
    rw [sortDesc, head_insertDesc, firstMaxBy, ← ih]
    cases (sortDesc key xs).head? with
    | none => rfl
    | some y => by_cases h : key y ≤ key x <;> simp [h]

theorem firstMinBy_isSome (key : Player → Int) (l : List Player) (h : l ≠ []) :
    ∃ y, firstMinBy key l = some y := by
  cases l with
  | nil => exact absurd rfl h
  | cons x xs =>
    rw [firstMinBy]
    cases firstMinBy key xs with
    | none => exact ⟨x, rfl⟩
    | some y =>
      by_cases hxy : key x ≤ key y
      · exact ⟨x, by simp [hxy]⟩
      · exact ⟨y, by simp [hxy]⟩

theorem firstMaxBy_isSome (key : Player → Int) (l : List Player) (h : l ≠ []) :
    ∃ y, firstMaxBy key l = some y := by
  cases l with
  | nil => exact absurd rfl h
  | cons x xs =>
    rw [firstMaxBy]
    cases firstMaxBy key xs with
    | none => exact ⟨x, rfl⟩
    | some y =>
      by_cases hxy : key y ≤ key x
      · exact ⟨x, by simp [hxy]⟩
      · exact ⟨y, by simp [hxy]⟩

/-- Claim C2: the substitution planner returns `{null, null}` whenever either
list is empty, and otherwise returns as incoming the bench player with the
lowest accumulated court seconds (earliest in bench order among ties) and as
outgoing the on-court player with the highest accumulated court seconds
(earliest in on-court order among ties).  As a pure Lean function it mutates
neither the input lists nor the ledger. -/
theorem pickPendingSwap_contract (secondsMap : JMap)
    (onCourt bnch : List Player) :
    pickPendingSwap secondsMap onCourt bnch =
      if onCourt = [] ∨ bnch = [] then (none, none)
      else
        (firstMinBy (fun p => getCourtSeconds secondsMap (some p)) bnch,
         firstMaxBy (fun p => getCourtSeconds secondsMap (some p)) onCourt) := by
  by_cases hc : onCourt = [] ∨ bnch = []
  · have hlen : onCourt.length = 0 ∨ bnch.length = 0 := by
      rcases hc with h | h <;> [left; right] <;> simp [h]
    rw [if_pos hc]
    unfold pickPendingSwap
    rcases hlen with h | h <;> simp [h]
  · push_neg at hc
    obtain ⟨i, hi⟩ :=
      firstMinBy_isSome (fun p => getCourtSeconds secondsMap (some p)) bnch hc.2
    obtain ⟨o, ho⟩ :=
      firstMaxBy_isSome (fun p => getCourtSeconds secondsMap (some p)) onCourt
        hc.1
    have h1 : ¬ onCourt.length = 0 := by simp [hc.1]
    have h2 : ¬ bnch.length = 0 := by simp [hc.2]
    rw [if_neg (by push_neg; exact hc)]
    unfold pickPendingSwap
    simp [h1, h2, head_sortAsc, head_sortDesc, hi, ho]

/-- A small concrete game state used by the witness theorems: two starters,
one bench player, running, sub window at zero, anchored at t = 1 000 000 ms. -/
def sampleState : GameState where
  starters := [⟨"s1", "S1"⟩, ⟨"s2", "S2"⟩]
  bench := [⟨"b1", "B1"⟩]
  secondsMap := [("s1", 5), ("s2", 20), ("b1", 10)]
  subsMap := [("s1", 0), ("s2", 0), ("b1", 0)]
  gameClock := 600
  subWindowClock := 0
  isPaused := false
  pauseReason := none
  gameEnded := false
  pendingIn := none
  pendingOut := none
  subCountdownActive := false
  manualSwapDraft := none
  manualPrompt := none
  lastTickTimestamp := 1000000
  halfLengthSeconds := 1080
  subIntervalSeconds := 240
  subWarningSeconds := 30
  quarterBreakSeconds := 0
  quarterPauseTriggered := false
  lastQuarterLabel := none
  lastHalfLabel := none
  breakOverlayDismissed := false
  gameReady := true
  quarterCounter := 1
  halfCounter := 1
  gameStartTimestamp := 0
  latestSavedGameId := none
  initialRoster := [⟨"s1", "S1"⟩, ⟨"s2", "S2"⟩, ⟨"b1", "B1"⟩]
  history := []

/-- Claim C1: for every `flushElapsedTime` call with
`elapsed = floor((now - lastTickTimestamp) / 1000)`: while running and
`elapsed ≥ 1`, both clocks drop by `elapsed` floored at 0, every current
starter's ledger entry grows by exactly `elapsed`, non-starter entries are
unchanged, and the anchor advances by exactly `elapsed * 1000`; while running
with `elapsed = 0` the call changes nothing; while paused or ended the call
only re-anchors `lastTickTimestamp` to `now`. -/
theorem flushElapsedTime_contract (s : GameState) (now e : Int)
    (he : e = Int.fdiv (now - s.lastTickTimestamp) 1000)
    (hnd : (s.starters.map Player.id).Nodup) :
    (s.isPaused = false → s.gameEnded = false → 1 ≤ e →
      (flushElapsedTime s now).gameClock = max 0 (s.gameClock - e) ∧
      (flushElapsedTime s now).subWindowClock = max 0 (s.subWindowClock - e) ∧
      (flushElapsedTime s now).lastTickTimestamp
          = s.lastTickTimestamp + e * 1000 ∧
      (∀ p ∈ s.starters,
        mapGet (flushElapsedTime s now).secondsMap p.id
          = some ((mapGet s.secondsMap p.id).getD 0 + e)) ∧
      (∀ k, k ∉ s.starters.map Player.id →
        mapGet (flushElapsedTime s now).secondsMap k = mapGet s.secondsMap k)) ∧
    (s.isPaused = false → s.gameEnded = false → e = 0 →
      flushElapsedTime s now = s) ∧
    (s.isPaused = true ∨ s.gameEnded = true →
      flushElapsedTime s now = { s with lastTickTimestamp := now }) := by
  refine ⟨?_, ?_, ?_⟩
  · intro hp hg hge
    subst he
    have hnle : ¬ Int.fdiv (now - s.lastTickTimestamp) 1000 ≤ 0 := by omega
    refine ⟨?_, ?_, ?_, ?_, ?_⟩
    · simp [flushElapsedTime, applyElapsedSeconds, hp, hg, hnle]
    · simp [flushElapsedTime, applyElapsedSeconds, hp, hg, hnle]
    · simp [flushElapsedTime, applyElapsedSeconds, hp, hg, hnle]
    · intro p hp'
      have hmem : p.id ∈ s.starters.map Player.id := List.mem_map_of_mem _ hp'
      simp only [flushElapsedTime, applyElapsedSeconds, hp, hg, hnle,
        Bool.or_self, Bool.false_eq_true, if_false, if_neg hnle]
      exact mapGet_addCourtSeconds_mem s.starters s.secondsMap _ p.id hnd hmem
    · intro k hk
      simp only [flushElapsedTime, applyElapsedSeconds, hp, hg, hnle,
        Bool.or_self, Bool.false_eq_true, if_false, if_neg hnle]
      exact mapGet_addCourtSeconds_notMem s.starters s.secondsMap _ k hk
  · intro hp hg hze
    have : Int.fdiv (now - s.lastTickTimestamp) 1000 ≤ 0 := by omega
    simp [flushElapsedTime, hp, hg, this]
  · intro h
    rcases h with h | h <;> simp [flushElapsedTime, h]

/-- Witness for C1: a running state anchored at 1 000 000 ms flushed at
1 002 500 ms consumes exactly 2 s and advances the anchor to 1 002 000 ms. -/
theorem flushElapsedTime_contract_witness :
    (flushElapsedTime sampleState 1002500).gameClock
        = max 0 (sampleState.gameClock - 2) ∧
    (flushElapsedTime sampleState 1002500).lastTickTimestamp
        = sampleState.lastTickTimestamp + 2 * 1000 := by
  have h :=
    flushElapsedTime_contract sampleState 1002500 2 (by decide) (by decide)
  have h1 := h.1 rfl rfl (by decide)
  exact ⟨h1.1, h1.2.2.1⟩

/-- Claim C3: restoring a version-compatible snapshot that was saved running
(not paused, not ended) with clocks `g` and `sub` at wall-clock time
`savedAt + Δ·1000` (whole seconds, `Δ ≥ 0`) yields
`gameClock = max(0, g − Δ)` and `subWindowClock = max(0, sub − Δ)`, credits
exactly `Δ` seconds to each stored starter's ledger entry, and leaves every
other ledger entry untouched. -/
theorem restoreFromPersisted_contract (p : PersistedGameState)
    (now t d g sub : Int)
    (hres : canRestore p = true)
    (hpause : p.isPaused.getD false = false)
    (hG : p.gameClock = some g) (hS : p.subWindowClock = some sub)
    (hg0 : 0 ≤ g) (hs0 : 0 ≤ sub)
    (hsaved : p.savedAt = some t) (hnow : now = t + d * 1000) (hd : 0 ≤ d)
    (hnd : ((p.starters.getD []).map Player.id).Nodup)
    (hpresent : ∀ pl ∈ p.starters.getD [],
      (mapGet (p.playerCourtSeconds.getD []) pl.id).isSome = true) :
    (restoreFromPersisted p now).gameClock = max 0 (g - d) ∧
    (restoreFromPersisted p now).subWindowClock = max 0 (sub - d) ∧
    (∀ pl ∈ p.starters.getD [],
      mapGet (restoreFromPersisted p now).secondsMap pl.id
        = some ((mapGet (p.playerCourtSeconds.getD []) pl.id).getD 0 + d)) ∧
    (∀ k, k ∉ (p.starters.getD []).map Player.id →
      mapGet (restoreFromPersisted p now).secondsMap k
        = mapGet (p.playerCourtSeconds.getD []) k) := by
  have hge : p.gameEnded.getD false = false := by
    simp [canRestore] at hres
    exact hres.2
  have hdiff : now - t = d * 1000 := by omega
  have hfd : Int.fdiv (now - t) 1000 = d := by
    rw [hdiff]
    exact Int.mul_fdiv_cancel d (by norm_num)
  have helapsed :
      (if p.gameEnded.getD false || p.isPaused.getD false then (0 : Int)
        else max 0 (Int.fdiv (now - p.savedAt.getD now) 1000)) = d := by
    rw [hge, hpause, hsaved]
    simp only [Bool.or_self, Bool.false_eq_true, if_false, Option.getD_some]
    rw [hfd]
    omega
  by_cases hdz : d = 0
  · subst hdz
    have hzero :
        (if p.gameEnded.getD false || p.isPaused.getD false then (0 : Int)
          else max 0 (Int.fdiv (now - p.savedAt.getD now) 1000)) = 0 := helapsed
    refine ⟨?_, ?_, ?_, ?_⟩
    · simp only [restoreFromPersisted, hzero, hG, Option.getD_some]
      simp
      omega
    · simp only [restoreFromPersisted, hzero, hS, Option.getD_some]
      simp
      omega
    · intro pl hpl
      obtain ⟨v, hv⟩ := Option.isSome_iff_exists.mp (hpresent pl hpl)
      simp only [restoreFromPersisted, hzero]
      simp [hv]
    · intro k hk
      simp only [restoreFromPersisted, hzero]
      simp
  · have hdpos : (0 : Int) < d := lt_of_le_of_ne hd (Ne.symm hdz)
    have hpos :
        (0 : Int) <
          (if p.gameEnded.getD false || p.isPaused.getD false then (0 : Int)
            else max 0 (Int.fdiv (now - p.savedAt.getD now) 1000)) := by
      rw [helapsed]; exact hdpos
    refine ⟨?_, ?_, ?_, ?_⟩
    · simp only [restoreFromPersisted, hG, Option.getD_some]
      rw [if_pos (by rw [helapsed] at hpos ⊢; exact hpos)]
      rw [helapsed]
    · simp only [restoreFromPersisted, hS, Option.getD_some]
      rw [if_pos (by rw [helapsed] at hpos ⊢; exact hpos)]
      rw [helapsed]
    · intro pl hpl
      have hmem : pl.id ∈ (p.starters.getD []).map Player.id :=
        List.mem_map_of_mem _ hpl
      simp only [restoreFromPersisted]
      rw [if_pos (by rw [helapsed]; exact hdpos), helapsed]
      exact mapGet_addCourtSeconds_mem _ _ _ _ hnd hmem
    · intro k hk
      simp only [restoreFromPersisted]
      rw [if_pos (by rw [helapsed]; exact hdpos), helapsed]
      exact mapGet_addCourtSeconds_notMem _ _ _ _ hk

/-- Witness for C3: a running snapshot with clocks 500 / 120 saved at
t = 2 000 000 ms and restored 3 s later comes back with
`gameClock = 497` and the stored starter's ledger entry increased by 3. -/
theorem restoreFromPersisted_contract_witness :
    (restoreFromPersisted
        { version := 1
          savedAt := some 2000000
          starters := some [⟨"s1", "S1"⟩]
          bench := some [⟨"b1", "B1"⟩]
          gameClock := some 500
          subWindowClock := some 120
          isPaused := some false
          gameEnded := some false
          playerCourtSeconds := some [("s1", 7), ("b1", 2)] }
        2003000).gameClock = max 0 (500 - 3) := by
  exact (restoreFromPersisted_contract
    { version := 1
      savedAt := some 2000000
      starters := some [⟨"s1", "S1"⟩]
      bench := some [⟨"b1", "B1"⟩]
      gameClock := some 500
      subWindowClock := some 120
      isPaused := some false
      gameEnded := some false
      playerCourtSeconds := some [("s1", 7), ("b1", 2)] }
    2003000 2000000 3 500 120 (by decide) (by decide) rfl rfl (by decide)
    (by decide) rfl (by decide) (by decide) (by decide)
    (by intro pl hpl; fin_cases hpl; decide)).1

/-- Claim C4: `performSub` is a no-op when either side is null; otherwise it
bumps exactly the two involved players' lifetime sub counters by 1 (leaving
every other counter unchanged), moves the outgoing player out of the starters
list (appending the incoming player at its end), moves the incoming player
out of the bench list (appending the outgoing player at its end), and leaves
the court-seconds ledger untouched. -/
theorem performSub_contract (s : GameState) (inc out : Option Player) :
    (inc = none ∨ out = none → performSubWith s inc out = s) ∧
    (∀ ip op, inc = some ip → out = some op → ip.id ≠ op.id →
      mapGet (performSubWith s inc out).subsMap ip.id
          = some ((mapGet s.subsMap ip.id).getD 0 + 1) ∧
      mapGet (performSubWith s inc out).subsMap op.id
          = some ((mapGet s.subsMap op.id).getD 0 + 1) ∧
      (∀ k, k ≠ ip.id → k ≠ op.id →
        mapGet (performSubWith s inc out).subsMap k = mapGet s.subsMap k) ∧
      (performSubWith s inc out).starters
          = s.starters.filter (fun q => q.id ≠ op.id) ++ [ip] ∧
      (performSubWith s inc out).bench
          = s.bench.filter (fun q => q.id ≠ ip.id) ++ [op] ∧
      (performSubWith s inc out).secondsMap = s.secondsMap) := by
  constructor
  · rintro (h | h) <;> subst h
    · cases out <;> rfl
    · cases inc <;> rfl
  · intro ip op hinc hout hne
    subst hinc; subst hout
    refine ⟨?_, ?_, ?_, rfl, rfl, rfl⟩
    · show mapGet (bumpSubCount (bumpSubCount s.subsMap ip.id) op.id) ip.id = _
      rw [bumpSubCount, mapGet_mapSet_ne _ _ hne, bumpSubCount,
        mapGet_mapSet_self]
    · show mapGet (bumpSubCount (bumpSubCount s.subsMap ip.id) op.id) op.id = _
      rw [bumpSubCount, mapGet_mapSet_self, bumpSubCount,
        mapGet_mapSet_ne _ _ (Ne.symm hne)]
    · intro k hki hko
      show mapGet (bumpSubCount (bumpSubCount s.subsMap ip.id) op.id) k = _
      rw [bumpSubCount, mapGet_mapSet_ne _ _ hko, bumpSubCount,
        mapGet_mapSet_ne _ _ hki]

/-- Witness for C4: substituting B1 in for S1 in the sample state bumps B1's
sub counter from 0 to 1. -/
theorem performSub_contract_witness :
    mapGet (performSubWith sampleState (some ⟨"b1", "B1"⟩)
        (some ⟨"s1", "S1"⟩)).subsMap "b1"
      = some ((mapGet sampleState.subsMap "b1").getD 0 + 1) :=
  ((performSub_contract sampleState (some ⟨"b1", "B1"⟩)
      (some ⟨"s1", "S1"⟩)).2 ⟨"b1", "B1"⟩ ⟨"s1", "S1"⟩ rfl rfl
    (by decide)).1

/-! ### Permutation lemmas for roster conservation -/

theorem filter_ne_cons_eq (b a : String) (T : List String) :
    (b :: T).filter (fun k => k ≠ a)
      = if b = a then T.filter (fun k => k ≠ a)
        else b :: T.filter (fun k => k ≠ a) := by
  by_cases h : b = a <;> simp [List.filter_cons, h]

theorem filter_ne_eq_self {a : String} :
    ∀ {T : List String}, a ∉ T → T.filter (fun k => k ≠ a) = T := by
  intro T
  induction T with
  | nil => intro _; rfl
  | cons x T ih =>
    intro h
    have hx : ¬ x = a := fun hh => h (hh ▸ List.mem_cons_self x T)
    rw [filter_ne_cons_eq, if_neg hx,
      ih (fun hh => h (List.mem_cons_of_mem x hh))]

theorem perm_cons_filter_of_nodup :
    ∀ {L : List String} {a : String}, a ∈ L → L.Nodup →
      L.Perm (a :: L.filter (fun k => k ≠ a)) := by
  intro L
  induction L with
  | nil => intro a hm; simp at hm
  | cons b T ih =>
    intro a hm hnd
    obtain ⟨hbT, hndT⟩ := List.nodup_cons.mp hnd
    rcases List.mem_cons.mp hm with hab | ha
    · subst hab
      rw [filter_ne_cons_eq, if_pos rfl, filter_ne_eq_self hbT]
    · have hba : ¬ b = a := fun hb => hbT (hb ▸ ha)
      rw [filter_ne_cons_eq, if_neg hba]
      exact (List.Perm.cons b (ih ha hndT)).trans (List.Perm.swap a b _)

theorem filter_pne_cons_eq (q : Player) (a : String) (l : List Player) :
    (q :: l).filter (fun r => r.id ≠ a)
      = if q.id = a then l.filter (fun r => r.id ≠ a)
        else q :: l.filter (fun r => r.id ≠ a) := by
  by_cases h : q.id = a <;> simp [List.filter_cons, h]

theorem map_id_filter_ne (l : List Player) (a : String) :
    (l.filter (fun q => q.id ≠ a)).map Player.id
      = (l.map Player.id).filter (fun k => k ≠ a) := by
  induction l with
  | nil => rfl
  | cons q rest ih =>
    rw [filter_pne_cons_eq, List.map_cons, filter_ne_cons_eq]
    by_cases h : q.id = a
    · rw [if_pos h, if_pos h, ih]
    · rw [if_neg h, if_neg h, List.map_cons, ih]

theorem performSubWith_ids (s : GameState) (ip op : Player)
    (hb : ip ∈ s.bench) (hs : op ∈ s.starters)
    (hnd : ((s.starters ++ s.bench).map Player.id).Nodup) :
    (((performSubWith s (some ip) (some op)).starters
        ++ (performSubWith s (some ip) (some op)).bench).map Player.id).Perm
      ((s.starters ++ s.bench).map Player.id) ∧
    (performSubWith s (some ip) (some op)).starters.length
      = s.starters.length := by
  rw [List.map_append] at hnd
  obtain ⟨hndSt, hndB, hdisj⟩ := List.nodup_append.mp hnd
  have hop : op.id ∈ s.starters.map Player.id := List.mem_map_of_mem _ hs
  have hip : ip.id ∈ s.bench.map Player.id := List.mem_map_of_mem _ hb
  have h1 := perm_cons_filter_of_nodup hop hndSt
  have h2 := perm_cons_filter_of_nodup hip hndB
  set F1 := (s.starters.map Player.id).filter (fun k => k ≠ op.id) with hF1
  set F2 := (s.bench.map Player.id).filter (fun k => k ≠ ip.id) with hF2
  have hlen1 : F1.length + 1 = s.starters.length := by
    have := h1.length_eq
    simp only [List.length_cons, List.length_map] at this
    omega
  constructor
  · have hgoal :
        ((performSubWith s (some ip) (some op)).starters
          ++ (performSubWith s (some ip) (some op)).bench).map Player.id
        = (F1 ++ ip.id :: F2) ++ [op.id] := by
      show ((s.starters.filter (fun q => q.id ≠ op.id) ++ [ip])
          ++ (s.bench.filter (fun q => q.id ≠ ip.id) ++ [op])).map Player.id
        = _
      simp only [List.map_append, map_id_filter_ne, List.map_cons,
        List.map_nil, ← hF1, ← hF2]
      simp [List.append_assoc]
    rw [hgoal, List.map_append]
    have hR : (s.starters.map Player.id ++ s.bench.map Player.id).Perm
        (op.id :: (F1 ++ ip.id :: F2)) := by
      have h3 := h1.append h2
      simpa using h3
    exact (List.perm_append_singleton _ _).trans hR.symm
  · show (s.starters.filter (fun q => q.id ≠ op.id) ++ [ip]).length = _
    have hm : (s.starters.filter (fun q => q.id ≠ op.id)).length
        = F1.length := by
      rw [hF1, ← map_id_filter_ne, List.length_map]
    simp only [List.length_append, List.length_cons, List.length_nil, hm]
    omega

theorem performSubs_ids :
    ∀ (calls : List (Option Player × Option Player)) (s : GameState),
      validCalls s calls = true →
      ((s.starters ++ s.bench).map Player.id).Nodup →
      (((performSubs s calls).starters
          ++ (performSubs s calls).bench).map Player.id).Perm
        ((s.starters ++ s.bench).map Player.id) ∧
      (performSubs s calls).starters.length = s.starters.length := by
  intro calls
  induction calls with
  | nil => intro s _ _; exact ⟨List.Perm.refl _, rfl⟩
  | cons c cs ih =>
    intro s hv hnd
    rw [validCalls, Bool.and_eq_true] at hv
    obtain ⟨hv1, hv2⟩ := hv
    have hfold : performSubs s (c :: cs)
        = performSubs (performSubWith s c.1 c.2) cs := rfl
    rcases c with ⟨inc, out⟩
    rcases inc with _ | ip
    · have h0 : performSubWith s none out = s := by cases out <;> rfl
      rw [hfold]
      simp only [h0]
      exact ih s hv2 hnd
    · rcases out with _ | op
      · have h0 : performSubWith s (some ip) none = s := rfl
        rw [hfold]
        simp only [h0]
        exact ih s hv2 hnd
      · rw [validCall, Bool.and_eq_true, decide_eq_true_eq,
          decide_eq_true_eq] at hv1
        obtain ⟨hstep, hslen⟩ :=
          performSubWith_ids s ip op hv1.1 hv1.2 hnd
        have hnd1 := hstep.nodup_iff.mpr hnd
        obtain ⟨hrest, hrlen⟩ :=
          ih (performSubWith s (some ip) (some op)) hv2 hnd1
        rw [hfold]
        exact ⟨hrest.trans hstep, by rw [hrlen, hslen]⟩

/-- Claim C5: across any sequence of substitutions whose incoming player
comes from the bench and whose outgoing player comes from the starters, the
set of player ids of `starters ∪ bench` is invariant — no id is lost,
duplicated, or created — and each executed substitution leaves the number of
starters unchanged. -/
theorem roster_conservation (s : GameState)
    (calls : List (Option Player × Option Player))
    (hv : validCalls s calls = true)
    (hnd : ((s.starters ++ s.bench).map Player.id).Nodup) :
    (((performSubs s calls).starters
        ++ (performSubs s calls).bench).map Player.id).Nodup ∧
    (∀ k, k ∈ ((performSubs s calls).starters
        ++ (performSubs s calls).bench).map Player.id
      ↔ k ∈ (s.starters ++ s.bench).map Player.id) ∧
    (performSubs s calls).starters.length = s.starters.length := by
  obtain ⟨hperm, hlen⟩ := performSubs_ids calls s hv hnd
  exact ⟨hperm.nodup_iff.mpr hnd, fun k => hperm.mem_iff, hlen⟩

/-- Witness for C5: the sample state after the auto-substitution
B1 ↔ S1 still fields two starters. -/
theorem roster_conservation_witness :
    (performSubs sampleState
        [(some ⟨"b1", "B1"⟩, some ⟨"s1", "S1"⟩)]).starters.length
      = sampleState.starters.length :=
  (roster_conservation sampleState
    [(some ⟨"b1", "B1"⟩, some ⟨"s1", "S1"⟩)] (by decide) (by decide)).2.2

/-- Claim C6: when the per-tick evaluation runs with `subWindowClock = 0`
and the game not paused, the freshly planned swap is executed via
`performSub` exactly when both its sides are non-null (otherwise the roster
and sub counters are untouched), the pending-swap proposal is cleared to
null, and `subWindowClock` is reset to the full configured interval. -/
theorem subWindowTick_zero (s : GameState)
    (hp : s.isPaused = false) (hz : s.subWindowClock = 0) :
    (subWindowTick s).pendingIn = none ∧
    (subWindowTick s).pendingOut = none ∧
    (subWindowTick s).subCountdownActive = false ∧
    (subWindowTick s).manualSwapDraft = none ∧
    (subWindowTick s).manualPrompt = none ∧
    (subWindowTick s).subWindowClock = s.subIntervalSeconds ∧
    (∀ ip op,
      pickPendingSwap s.secondsMap s.starters s.bench = (some ip, some op) →
      (subWindowTick s).starters
          = (performSubWith s (some ip) (some op)).starters ∧
      (subWindowTick s).bench
          = (performSubWith s (some ip) (some op)).bench ∧
      (subWindowTick s).subsMap
          = (performSubWith s (some ip) (some op)).subsMap) ∧
    ((pickPendingSwap s.secondsMap s.starters s.bench).1 = none ∨
        (pickPendingSwap s.secondsMap s.starters s.bench).2 = none →
      (subWindowTick s).starters = s.starters ∧
      (subWindowTick s).bench = s.bench ∧
      (subWindowTick s).subsMap = s.subsMap) := by
  have hw : ¬ (s.subWindowClock ≤ s.subWarningSeconds ∧ 0 < s.subWindowClock) := by
    simp [hz]
  have hnp : ¬ s.isPaused = true := by simp [hp]
  rcases hplan : pickPendingSwap s.secondsMap s.starters s.bench with ⟨inc, out⟩
  rcases inc with _ | ip <;> rcases out with _ | op <;>
    simp only [subWindowTick, if_neg hnp, if_neg hw, hz, if_pos rfl, hplan] <;>
    simp [performSubWith, hplan]

/-- Witness for C6: the sample state (running, `subWindowClock = 0`) resets
the window to the full 240 s interval and clears the pending pair. -/
theorem subWindowTick_zero_witness :
    (subWindowTick sampleState).pendingIn = none ∧
    (subWindowTick sampleState).subWindowClock
      = sampleState.subIntervalSeconds := by
  have h := subWindowTick_zero sampleState rfl rfl
  exact ⟨h.1, h.2.2.2.2.2.1⟩

/-! ### Lemmas for finalization -/

theorem persistGameHistory_gameEnded (t : GameState) (e : Int) :
    (persistGameHistory t e).gameEnded = t.gameEnded := by
  unfold persistGameHistory
  split_ifs <;> rfl

theorem applyElapsedSeconds_history (s : GameState) (d : Int) :
    (applyElapsedSeconds s d).history = s.history := by
  rw [applyElapsedSeconds]
  split <;> rfl

theorem applyElapsedSeconds_initialRoster (s : GameState) (d : Int) :
    (applyElapsedSeconds s d).initialRoster = s.initialRoster := by
  rw [applyElapsedSeconds]
  split <;> rfl

theorem flushElapsedTime_history (s : GameState) (now : Int) :
    (flushElapsedTime s now).history = s.history := by
  rw [flushElapsedTime]
  split
  · rfl
  · dsimp only
    split
    · rfl
    · exact applyElapsedSeconds_history s _

theorem flushElapsedTime_initialRoster (s : GameState) (now : Int) :
    (flushElapsedTime s now).initialRoster = s.initialRoster := by
  rw [flushElapsedTime]
  split
  · rfl
  · dsimp only
    split
    · rfl
    · exact applyElapsedSeconds_initialRoster s _

theorem finalizeGame_gameEnded (s : GameState) (now : Int)
    (h : s.gameEnded = false) : (finalizeGame s now).gameEnded = true := by
  rw [finalizeGame, if_neg (by simp [h])]
  show (persistGameHistory _ now).gameEnded = true
  rw [persistGameHistory_gameEnded]

/-- Claim C7 (amended): the second `finalizeGame` call is always a no-op
leaving the whole state unchanged, and for a live game (not yet ended) with a
non-empty initial roster the two calls append exactly one archived-game
record to the history list and mark the game ended. -/
theorem finalizeGame_contract (s : GameState) (now now2 : Int) :
    finalizeGame (finalizeGame s now) now2 = finalizeGame s now ∧
    (s.gameEnded = false → s.initialRoster ≠ [] →
      (finalizeGame s now).history.length = s.history.length + 1 ∧
      (finalizeGame s now).gameEnded = true) := by
  cases hsb : s.gameEnded with
  | true =>
    have h1 : finalizeGame s now = s := by rw [finalizeGame, if_pos hsb]
    constructor
    · rw [h1, finalizeGame, if_pos hsb]
    · intro h
      exact Bool.noConfusion h
  | false =>
    constructor
    · rw [finalizeGame, if_pos (finalizeGame_gameEnded s now hsb)]
    · intro _ hr
      refine ⟨?_, finalizeGame_gameEnded s now hsb⟩
      rw [finalizeGame, if_neg (by simp [hsb])]
      show (persistGameHistory _ now).history.length = _
      rw [persistGameHistory,
        if_neg (by
          show ¬ (flushElapsedTime s now).initialRoster.length = 0
          rw [flushElapsedTime_initialRoster]
          simpa using hr)]
      show ((_ : SavedGameSnapshot) :: (flushElapsedTime s now).history).length
          = _
      rw [List.length_cons, flushElapsedTime_history]

/-- Witness for C7: finalizing the live sample state appends exactly one
record to its (empty) history. -/
theorem finalizeGame_contract_witness :
    (finalizeGame sampleState 1000001).history.length
      = sampleState.history.length + 1 :=
  ((finalizeGame_contract sampleState 1000001 1000002).2 rfl (by decide)).1

/-- Counterexample for C7 as stated « for every state »: on a live state
whose initial roster is empty, and likewise on an already-ended state,
calling `finalizeGame` twice appends zero archived-game records, not exactly
one (`persistGameHistory` returns early when the roster is empty, and the
ended guard skips everything). -/
theorem finalizeGame_counterexample :
    (finalizeGame (finalizeGame { sampleState with initialRoster := [] }
        1000001) 1000002).history.length
      = ({ sampleState with initialRoster := [] } : GameState).history.length ∧
    (finalizeGame (finalizeGame { sampleState with gameEnded := true }
        1000001) 1000002).history.length
      = ({ sampleState with gameEnded := true } : GameState).history.length :=
  ⟨by decide, by decide⟩

/-- Claim C8: once the pause reason is the terminal `"end"` marker, a
`togglePause` call returns without mutating any state at all — the ended
state is never exited by `togglePause`. -/
theorem togglePause_ended (s : GameState) (now : Int)
    (h : s.pauseReason = some "end") : togglePause s now = s := by
  rw [togglePause, if_pos h]

/-- Witness for C8: toggling pause on an ended sample state at an arbitrary
time changes nothing. -/
theorem togglePause_ended_witness :
    togglePause { sampleState with pauseReason := some "end" } 1234567
      = { sampleState with pauseReason := some "end" } :=
  togglePause_ended { sampleState with pauseReason := some "end" } 1234567 rfl

/-- Counterexample for C9: a stored half length of 7200 s (120 min) passes
the load-time normalization unchanged — the code only floors at 60 s and
never clamps to the claimed 3600 s upper bound. -/
theorem settings_clamp_counterexample :
    (normalizeGameSettings
        (some { halfLengthSeconds := some 7200 })).halfSeconds = 7200 ∧
    ¬ (normalizeGameSettings
        (some { halfLengthSeconds := some 7200 })).halfSeconds ≤ 3600 := by
  have h : (normalizeGameSettings
      (some { halfLengthSeconds := some 7200 })).halfSeconds = 7200 := by
    show max 60 (jsRound ((7200 : ℚ) / 60 * 60)) = 7200
    rw [jsRound]
    norm_num
  exact ⟨h, by rw [h]; norm_num⟩

/-- Claim C9 (amended): at game-load time the half length is clamped from
below at 60 s (with no upper bound), the substitution interval is clamped
from below at 30 s (with no upper bound), the quarter break at 0 s, and the
defaults when settings are absent are 18 minutes (half) and 4 minutes (sub
interval). -/
theorem settings_normalization_amended
    (settings : Option StoredGameSettings) :
    60 ≤ (normalizeGameSettings settings).halfSeconds ∧
    30 ≤ (normalizeGameSettings settings).subsSeconds ∧
    0 ≤ (normalizeGameSettings settings).quarterSeconds ∧
    (normalizeGameSettings none).halfSeconds = 18 * 60 ∧
    (normalizeGameSettings none).subsSeconds = 4 * 60 := by
  refine ⟨?_, ?_, ?_, ?_, ?_⟩
  · exact le_max_left _ _
  · exact le_max_left _ _
  · exact le_max_left _ _
  · show max 60 (jsRound (DEFAULT_HALF_MINUTES * 60)) = 18 * 60
    rw [jsRound, DEFAULT_HALF_MINUTES]
    norm_num
  · show max 30 (jsRound (DEFAULT_SUB_INTERVAL_MINUTES * 60)) = 4 * 60
    rw [jsRound, DEFAULT_SUB_INTERVAL_MINUTES]
    norm_num

/-! ### Lemmas for the roster-sync effect -/

theorem syncStep_foldl (r : List Player) :
    ∀ (acc : List Player × JMap × JMap),
      (r.foldl syncStep acc).2.1 = seedLedger acc.2.1 r ∧
      (r.foldl syncStep acc).2.2 = seedLedger acc.2.2 r := by
  induction r with
  | nil => intro acc; exact ⟨rfl, rfl⟩
  | cons p rest ih =>
    intro acc
    obtain ⟨h1, h2⟩ := ih (syncStep acc p)
    exact ⟨h1, h2⟩

theorem mapHas_seedLedger (r : List Player) :
    ∀ (m : JMap) (k : String),
      mapHas (seedLedger m r) k = true ↔
        mapHas m k = true ∨ k ∈ r.map Player.id := by
  induction r with
  | nil => intro m k; simp [seedLedger]
  | cons p rest ih =>
    intro m k
    have hstep : seedLedger m (p :: rest)
        = seedLedger (if mapHas m p.id then m else mapSet m p.id 0) rest := rfl
    rw [hstep, ih, List.map_cons, List.mem_cons]
    by_cases hp : mapHas m p.id = true
    · rw [if_pos hp]
      by_cases hk : k = p.id
      · subst hk; simp [hp]
      · simp [hk]
    · rw [if_neg hp]
      by_cases hk : k = p.id
      · subst hk; simp [mapHas_mapSet]
      · simp [mapHas_mapSet, hk]

theorem mapGet_seedLedger_present (r : List Player) :
    ∀ (m : JMap) (k : String), mapHas m k = true →
      mapGet (seedLedger m r) k = mapGet m k := by
  induction r with
  | nil => intro m k _; rfl
  | cons p rest ih =>
    intro m k hk
    have hstep : seedLedger m (p :: rest)
        = seedLedger (if mapHas m p.id then m else mapSet m p.id 0) rest := rfl
    rw [hstep]
    by_cases hp : mapHas m p.id = true
    · rw [if_pos hp]; exact ih m k hk
    · rw [if_neg hp]
      have hne : k ≠ p.id := fun h => hp (h ▸ hk)
      rw [ih _ _ ((mapHas_mapSet m p.id k 0).mpr (Or.inr hk)),
        mapGet_mapSet_ne m _ hne]

theorem mapGet_seedLedger_missing (r : List Player) :
    ∀ (m : JMap) (k : String), mapHas m k = false → k ∈ r.map Player.id →
      mapGet (seedLedger m r) k = some 0 := by
  induction r with
  | nil => intro m k _ hmem; simp at hmem
  | cons p rest ih =>
    intro m k hk hmem
    have hstep : seedLedger m (p :: rest)
        = seedLedger (if mapHas m p.id then m else mapSet m p.id 0) rest := rfl
    rw [hstep]
    by_cases hkp : k = p.id
    · subst hkp
      rw [if_neg (by simp [hk])]
      rw [mapGet_seedLedger_present rest _ _
        ((mapHas_mapSet m p.id p.id 0).mpr (Or.inl rfl)), mapGet_mapSet_self]
    · have hmem' : k ∈ rest.map Player.id := by
        rw [List.map_cons] at hmem
        rcases List.mem_cons.mp hmem with h | h
        · exact absurd h hkp
        · exact h
      by_cases hp : mapHas m p.id = true
      · rw [if_pos hp]; exact ih m k hk hmem'
      · rw [if_neg hp]
        have hfalse : mapHas (mapSet m p.id 0) k = false := by
          rcases hh : mapHas (mapSet m p.id 0) k with _ | _
          · rfl
          · rcases (mapHas_mapSet m p.id k 0).mp hh with h | h
            · exact absurd h hkp
            · rw [h] at hk; cases hk
        exact ih _ _ hfalse hmem'

theorem mapGet_filter_roster (roster : List Player) :
    ∀ (m : JMap) (k : String),
      mapGet (m.filter (fun e => roster.any (fun p => p.id = e.1))) k
        = if k ∈ roster.map Player.id then mapGet m k else none := by
  intro m
  induction m with
  | nil => intro k; simp [mapGet]
  | cons e rest ih =>
    intro k
    rw [List.filter_cons]
    by_cases hm : roster.any (fun p => p.id = e.1) = true
    · rw [if_pos (by simpa using hm)]
      by_cases hk : e.1 = k
      · have hkr : k ∈ roster.map Player.id := by
          rcases List.any_eq_true.mp hm with ⟨p, hp, hpe⟩
          rw [decide_eq_true_eq] at hpe
          exact List.mem_map.mpr ⟨p, hp, by rw [hpe, hk]⟩
        rw [if_pos hkr]
        simp [mapGet, hk]
      · by_cases hkr : k ∈ roster.map Player.id <;>
          simp [mapGet, hk, hkr, ih]
    · rw [if_neg (by simpa using hm), ih]
      by_cases hkr : k ∈ roster.map Player.id
      · rw [if_pos hkr, if_pos hkr]
        have hek : ¬ e.1 = k := by
          intro he
          rcases List.mem_map.mp hkr with ⟨p, hp, hpid⟩
          exact hm (List.any_eq_true.mpr
            ⟨p, hp, by rw [decide_eq_true_eq, hpid, he]⟩)
        simp [mapGet, hek]
      · rw [if_neg hkr, if_neg hkr]

/-- Claim C10: after the roster-sync effect, the court-seconds key set equals
exactly the ids of `starters ∪ bench` (ids no longer in the roster are
deleted), every roster id missing from either ledger is seeded at 0, roster
entries already present keep their court-seconds values, and sub-count
entries are never deleted (all existing sub-count values are preserved). -/
theorem syncRosterLedger_contract (starters bench initialRoster : List Player)
    (secondsMap subsMap : JMap) :
    (∀ k,
      mapHas (syncRosterLedger starters bench initialRoster secondsMap
        subsMap).2.1 k = true
      ↔ k ∈ (starters ++ bench).map Player.id) ∧
    (∀ k, k ∉ (starters ++ bench).map Player.id →
      mapGet (syncRosterLedger starters bench initialRoster secondsMap
        subsMap).2.1 k = none) ∧
    (∀ p ∈ starters ++ bench, mapHas secondsMap p.id = false →
      mapGet (syncRosterLedger starters bench initialRoster secondsMap
        subsMap).2.1 p.id = some 0) ∧
    (∀ p ∈ starters ++ bench, mapHas secondsMap p.id = true →
      mapGet (syncRosterLedger starters bench initialRoster secondsMap
        subsMap).2.1 p.id = mapGet secondsMap p.id) ∧
    (∀ p ∈ starters ++ bench, mapHas subsMap p.id = false →
      mapGet (syncRosterLedger starters bench initialRoster secondsMap
        subsMap).2.2 p.id = some 0) ∧
    (∀ k, mapHas subsMap k = true →
      mapGet (syncRosterLedger starters bench initialRoster secondsMap
        subsMap).2.2 k = mapGet subsMap k) := by
  have hsm : (syncRosterLedger starters bench initialRoster secondsMap
      subsMap).2.1
      = (seedLedger secondsMap (starters ++ bench)).filter
          (fun e => (starters ++ bench).any (fun p => p.id = e.1)) := by
    show (((starters ++ bench).foldl syncStep
        (initialRoster, secondsMap, subsMap)).2.1.filter _) = _
    rw [(syncStep_foldl (starters ++ bench)
      (initialRoster, secondsMap, subsMap)).1]
  have hbm : (syncRosterLedger starters bench initialRoster secondsMap
      subsMap).2.2 = seedLedger subsMap (starters ++ bench) := by
    show ((starters ++ bench).foldl syncStep
        (initialRoster, secondsMap, subsMap)).2.2 = _
    rw [(syncStep_foldl (starters ++ bench)
      (initialRoster, secondsMap, subsMap)).2]
  refine ⟨?_, ?_, ?_, ?_, ?_, ?_⟩
  · intro k
    rw [hsm, mapHas_eq_isSome, mapGet_filter_roster]
    by_cases hkr : k ∈ (starters ++ bench).map Player.id
    · rw [if_pos hkr]
      have h2 : mapHas (seedLedger secondsMap (starters ++ bench)) k = true :=
        (mapHas_seedLedger _ _ _).mpr (Or.inr hkr)
      rw [mapHas_eq_isSome] at h2
      exact iff_of_true h2 hkr
    · rw [if_neg hkr]
      exact iff_of_false (by simp) hkr
  · intro k hk
    rw [hsm, mapGet_filter_roster, if_neg hk]
  · intro p hp hmiss
    have hmem : p.id ∈ (starters ++ bench).map Player.id :=
      List.mem_map_of_mem _ hp
    rw [hsm, mapGet_filter_roster, if_pos hmem]
    exact mapGet_seedLedger_missing _ _ _ hmiss hmem
  · intro p hp hhas
    have hmem : p.id ∈ (starters ++ bench).map Player.id :=
      List.mem_map_of_mem _ hp
    rw [hsm, mapGet_filter_roster, if_pos hmem]
    exact mapGet_seedLedger_present _ _ _ hhas
  · intro p hp hmiss
    have hmem : p.id ∈ (starters ++ bench).map Player.id :=
      List.mem_map_of_mem _ hp
    rw [hbm]
    exact mapGet_seedLedger_missing _ _ _ hmiss hmem
  · intro k hhas
    rw [hbm]
    exact mapGet_seedLedger_present _ _ _ hhas

/-- Witness for C10: syncing a roster where "x2" is new and "gone" has left
seeds the newcomer's court-seconds at 0. -/
theorem syncRosterLedger_contract_witness :
    mapGet (syncRosterLedger [⟨"s1", "S1"⟩] [⟨"x2", "X2"⟩] [⟨"s1", "S1"⟩]
        [("s1", 5), ("gone", 9)] [("s1", 0), ("gone", 3)]).2.1 "x2"
      = some 0 :=
  (syncRosterLedger_contract [⟨"s1", "S1"⟩] [⟨"x2", "X2"⟩] [⟨"s1", "S1"⟩]
      [("s1", 5), ("gone", 9)] [("s1", 0), ("gone", 3)]).2.2.1
    ⟨"x2", "X2"⟩ (by decide) (by decide)

end EzySubs
